import Mathlib

/-!
Formal model of the spike-train analysis script
(scripts/spike_train_analysis.py).

The script generates a Poisson spike train, estimates a binned firing
rate, computes inter-spike-interval (ISI) statistics, and classifies the
firing pattern from the coefficient of variation.  Real-valued data is
modelled by the rational numbers.  The numpy calls the script makes are
modelled explicitly below:

* the global pseudorandom source (np.random.seed / np.random.poisson /
  np.random.uniform) is modelled by an abstract state machine, a
  structure of deterministic draw functions over an explicit state, so
  properties are proved for every possible underlying stream;
  np.random.poisson raises for a negative mean and returns 0
  deterministically for mean 0, exactly as numpy does;
* np.sort is modelled by insertion sort;
* np.arange and np.histogram are modelled with their documented
  semantics (histogram bins are left-closed, right-open, except the
  last bin which also contains its right edge; an edges array with
  fewer than two entries is not an error: it yields zero bins and
  empty counts, as numpy computes max(len(edges) - 1, 0) bins);
* np.std computes a square root of the population variance; the square
  root on floats is abstracted as an arbitrary function argument, so
  every theorem about the ISI record holds for any square root
  implementation (no claim below depends on its value);
* Python int() truncation toward zero is modelled by pyInt.
-/

/-- Floor of a rational as an integer, computable by kernel reduction
(Int division of numerator by denominator). -/
def ratFloorZ (q : ℚ) : ℤ := q.num / q.den

/-- Ceiling of a rational as an integer, computable by kernel reduction. -/
def ratCeilZ (q : ℚ) : ℤ := -ratFloorZ (-q)

/-- Python int() applied to a real number: truncation toward zero. -/
def pyInt (q : ℚ) : ℤ := if q < 0 then ratCeilZ q else ratFloorZ q

/-- Line 41 of the script: expected_spikes = int(rate * duration / 1000).
This is the value later passed as the mean of the Poisson draw. -/
def expected_spikes (rate duration : ℚ) : ℤ := pyInt (rate * duration / 1000)

/-- Model of the numpy global pseudorandom source: a seeding function and
deterministic draw functions over an explicit state (numbered abstractly
by naturals).  All theorems quantify over this structure, so they hold
for the concrete Mersenne Twister as a special case. -/
structure NumpyRNG where
  seedState : ℤ → ℕ
  poissonDraw : ℕ → ℕ → ℕ × ℕ
  uniformDraw : ℕ → ℚ → ℚ → ℚ × ℕ

/-- Model of np.random.poisson(lam) for an integer lam: raises ValueError
when lam < 0, returns 0 without consuming randomness when lam = 0
(as numpy does), and otherwise defers to the abstract draw. -/
def np_random_poisson (rng : NumpyRNG) (st : ℕ) (lam : ℤ) :
    Except String (ℕ × ℕ) :=
  if lam < 0 then Except.error "lam < 0"
  else if lam = 0 then Except.ok (0, st)
  else Except.ok (rng.poissonDraw st lam.toNat)

/-- Model of np.random.uniform(lo, hi, n): a list of n draws, threading
the pseudorandom state. -/
def np_random_uniform_list (rng : NumpyRNG) (st : ℕ) (n : ℕ) (lo hi : ℚ) :
    List ℚ × ℕ :=
  match n with
  | 0 => ([], st)
  | Nat.succ m =>
    let p := rng.uniformDraw st lo hi
    let rest := np_random_uniform_list rng p.2 m lo hi
    (p.1 :: rest.1, rest.2)

/-- Model of np.sort: sort ascending. -/
def np_sort (l : List ℚ) : List ℚ := List.insertionSort (· ≤ ·) l

/-- Lines 16-50 of the script: generate_spike_train(rate, duration, seed).
Seeds the global source, truncates the expected count with int(),
draws the count from the Poisson model, draws that many uniform
timestamps over [0, duration), and sorts them.  The incoming global
pseudorandom state is a parameter (the script mutates a process-wide
global); the result pairs the spike times with the final state. -/
def generate_spike_train (rng : NumpyRNG) (globalState : ℕ)
    (rate duration : ℚ) (seed : ℤ) : Except String (List ℚ × ℕ) :=
  let st1 := rng.seedState seed
  match np_random_poisson rng st1 (expected_spikes rate duration) with
  | Except.error e => Except.error e
  | Except.ok nst =>
    let draws := np_random_uniform_list rng nst.2 nst.1 0 duration
    Except.ok (np_sort draws.1, draws.2)

/-- Model of np.arange(start, stop, step): errors on a zero step, else
returns start + k * step for k = 0, 1, ... while before stop; the
number of elements is the ceiling of (stop - start) / step, clamped
at zero. -/
def np_arange (start stop step : ℚ) : Except String (List ℚ) :=
  if step = 0 then Except.error "step must be nonzero"
  else
    Except.ok ((List.range (ratCeilZ ((stop - start) / step)).toNat).map
      (fun k : ℕ => start + (k : ℚ) * step))

/-- Model of np.histogram(a, bins) for an explicit edges array: errors
when the edges decrease somewhere (numpy checks any(bins[:-1] >
bins[1:]), vacuously true below two edges); otherwise returns
max(len(bins) - 1, 0) counts, where bin i counts the values x with
edges[i] <= x < edges[i+1], except the last bin which also counts
x = edges[last].  Values outside the edges are not counted; fewer than
two edges give zero bins and empty counts, not an error. -/
def np_histogram (a : List ℚ) (bins : List ℚ) : Except String (List ℕ) :=
  if List.Chain' (· ≤ ·) bins then
    Except.ok ((List.range (bins.length - 1)).map (fun i =>
      a.countP (fun x =>
        decide (bins.getD i 0 ≤ x) &&
        (if i + 2 = bins.length then decide (x ≤ bins.getD (i + 1) 0)
         else decide (x < bins.getD (i + 1) 0)))))
  else Except.error "bins must increase monotonically"

/-- Line 76-77 of the script: the effective duration is the passed one,
else the last spike time, else 1000 for an empty train. -/
def effectiveDuration (spike_times : List ℚ) (duration : Option ℚ) : ℚ :=
  match duration with
  | some d => d
  | none =>
    match spike_times.getLast? with
    | some t => t
    | none => 1000

/-- Lines 53-91 of the script: calculate_firing_rate(spike_times,
bin_size, duration).  Builds the bin edges with np.arange, counts
spikes per bin with np.histogram, converts counts to rates in Hz and
edges to bin centers. -/
def calculate_firing_rate (spike_times : List ℚ) (bin_size : ℚ)
    (duration : Option ℚ) : Except String (List ℚ × List ℚ) :=
  let dur := effectiveDuration spike_times duration
  match np_arange 0 (dur + bin_size) bin_size with
  | Except.error e => Except.error e
  | Except.ok bins =>
    match np_histogram spike_times bins with
    | Except.error e => Except.error e
    | Except.ok counts =>
      let firing_rates := counts.map (fun c : ℕ => (c : ℚ) / (bin_size / 1000))
      let bin_centers := bins.dropLast.map (fun e => e + bin_size / 2)
      Except.ok (bin_centers, firing_rates)

/-- Model of np.diff: consecutive differences. -/
def np_diff (l : List ℚ) : List ℚ := List.zipWith (fun a b => b - a) l l.tail

/-- Model of np.mean: arithmetic mean (0 for the empty list, as 0/0 = 0
in the rationals; the script never reads the mean of an empty list). -/
def np_mean (l : List ℚ) : ℚ := l.sum / (l.length : ℚ)

/-- Result record of calculate_isi_statistics (lines 94-140). -/
structure ISIStatistics where
  mean_isi : ℚ
  std_isi : ℚ
  cv : ℚ
  num_intervals : ℕ
deriving DecidableEq

/-- Lines 94-140 of the script: calculate_isi_statistics(spike_times).
Computes np.diff of the spike times; with no intervals it returns the
all-zero record; otherwise the mean, the population standard deviation
(sqrtFn abstracts the square root applied to the population variance)
and the coefficient of variation guarded at a non-positive mean. -/
def calculate_isi_statistics (sqrtFn : ℚ → ℚ) (spike_times : List ℚ) :
    ISIStatistics :=
  let isis := np_diff spike_times
  if isis.length = 0 then
    { mean_isi := 0, std_isi := 0, cv := 0, num_intervals := 0 }
  else
    let mean_isi := np_mean isis
    let std_isi := sqrtFn (np_mean (isis.map (fun x => (x - mean_isi) ^ 2)))
    let cv := if mean_isi > 0 then std_isi / mean_isi else 0
    { mean_isi := mean_isi, std_isi := std_isi, cv := cv,
      num_intervals := isis.length }

/-- Lines 263-270 of the script: the firing-pattern label printed by
print_summary_statistics as a function of the coefficient of variation. -/
def firing_pattern (cv : ℚ) : String :=
  if cv < 0.5 then "Regular/rhythmic firing"
  else if cv < 1.5 then "Poisson-like (irregular) firing"
  else "Bursty/highly variable firing"

/-- A concrete instance of the pseudorandom-source model, used to
instantiate universally quantified theorems at a concrete input. -/
def sampleRNG : NumpyRNG where
  seedState := fun z => z.toNat
  poissonDraw := fun st lam => (lam, st + 1)
  uniformDraw := fun st lo hi => ((lo + hi) / 2, st + 1)

/-- Bridge: the computable floor agrees with the mathematical floor. -/
theorem ratFloorZ_eq_floor (q : ℚ) : ratFloorZ q = ⌊q⌋ := by
  rw [Rat.floor_def]; rfl

/-- Bridge: the computable ceiling agrees with the mathematical ceiling. -/
theorem ratCeilZ_eq_ceil (q : ℚ) : ratCeilZ q = ⌈q⌉ := by
  unfold ratCeilZ
  rw [ratFloorZ_eq_floor, Int.floor_neg, neg_neg]

/-- Bridge: on non-negative arguments Python int() is the floor. -/
theorem pyInt_eq_floor {q : ℚ} (h : 0 ≤ q) : pyInt q = ⌊q⌋ := by
  unfold pyInt
  rw [if_neg (not_lt.mpr h), ratFloorZ_eq_floor]

/-- C3: for every spike train with zero or one spikes the ISI analyzer
returns the record with mean_isi = 0, std_isi = 0, cv = 0 and
num_intervals = 0, for every square-root implementation. -/
theorem isi_zero_one_spike (sqrtFn : ℚ → ℚ) (ts : List ℚ)
    (h : ts.length ≤ 1) :
    calculate_isi_statistics sqrtFn ts =
      { mean_isi := 0, std_isi := 0, cv := 0, num_intervals := 0 } := by
  cases ts with
  | nil => rfl
  | cons x t =>
    cases t with
    | nil => rfl
    | cons y t2 => simp at h

/-- Witness for C3: the one-spike train [5.0] produces the all-zero
record (the empty train is covered by the same theorem). -/
theorem isi_zero_one_spike_witness :
    [(5 : ℚ)].length ≤ 1 ∧
    calculate_isi_statistics id [(5 : ℚ)] =
      { mean_isi := 0, std_isi := 0, cv := 0, num_intervals := 0 } :=
  ⟨by decide, isi_zero_one_spike id [(5 : ℚ)] (by decide)⟩

/-- C4: the firing-pattern classification is exactly cv < 0.5 regular,
0.5 <= cv < 1.5 Poisson-like, 1.5 <= cv bursty; in particular both
boundaries fall on the right-hand side. -/
theorem firing_pattern_classification (cv : ℚ) :
    (cv < 0.5 → firing_pattern cv = "Regular/rhythmic firing") ∧
    (0.5 ≤ cv → cv < 1.5 →
      firing_pattern cv = "Poisson-like (irregular) firing") ∧
    (1.5 ≤ cv → firing_pattern cv = "Bursty/highly variable firing") := by
  unfold firing_pattern
  refine ⟨fun h => ?_, fun h1 h2 => ?_, fun h => ?_⟩
  · rw [if_pos h]
  · rw [if_neg (not_lt.mpr h1), if_pos h2]
  · have h05 : ¬ cv < 0.5 := by push_neg; linarith
    have h15 : ¬ cv < 1.5 := not_lt.mpr h
    rw [if_neg h05, if_neg h15]

/-- Witness for C4: the two boundary values, cv = 0.5 is Poisson-like
and cv = 1.5 is bursty. -/
theorem firing_pattern_classification_witness :
    firing_pattern 0.5 = "Poisson-like (irregular) firing" ∧
    firing_pattern 1.5 = "Bursty/highly variable firing" :=
  ⟨(firing_pattern_classification 0.5).2.1 (by norm_num) (by norm_num),
   (firing_pattern_classification 1.5).2.2 (by norm_num)⟩

/-- C5: for a train with at least two spikes whose consecutive intervals
have arithmetic mean 0, the coefficient of variation is 0 (the division
is guarded, for every square-root implementation). -/
theorem cv_zero_mean_guard (sqrtFn : ℚ → ℚ) (ts : List ℚ)
    (h2 : 2 ≤ ts.length) (hm : np_mean (np_diff ts) = 0) :
    (calculate_isi_statistics sqrtFn ts).cv = 0 := by
  simp only [calculate_isi_statistics]
  split
  · rfl
  · simp only [hm]
    norm_num

/-- Witness for C5: the train [3, 3, 3] has two intervals, both zero, so
the interval mean is 0 and the analyzer returns cv = 0. -/
theorem cv_zero_mean_guard_witness :
    np_mean (np_diff [(3 : ℚ), 3, 3]) = 0 ∧
    (calculate_isi_statistics id [(3 : ℚ), 3, 3]).cv = 0 := by
  have hm : np_mean (np_diff [(3 : ℚ), 3, 3]) = 0 := by
    norm_num [np_mean, np_diff]
  exact ⟨hm, cv_zero_mean_guard id _ (by decide) hm⟩

/-- Helper: with a non-negative rate and positive duration the truncated
expected count is the floor of rate * duration / 1000, in particular
non-negative. -/
theorem expected_spikes_eq_floor {rate duration : ℚ} (hr : 0 ≤ rate)
    (hd : 0 < duration) :
    expected_spikes rate duration = ⌊rate * duration / 1000⌋ := by
  unfold expected_spikes
  exact pyInt_eq_floor (div_nonneg (mul_nonneg hr hd.le) (by norm_num))

/-- C8: the generator output is a deterministic function of rate,
duration and seed: the state of the global pseudorandom source before
the call does not influence the result, because np.random.seed
reinitializes it from the seed argument before any draw.  Hence two
calls with identical arguments yield identical timestamp sequences. -/
theorem generate_deterministic (rng : NumpyRNG) (st1 st2 : ℕ)
    (rate duration : ℚ) (seed : ℤ) :
    generate_spike_train rng st1 rate duration seed =
      generate_spike_train rng st2 rate duration seed := rfl

set_option maxHeartbeats 1000000 in
/-- C9: for every valid input (rate at least 0, duration positive) and
every pseudorandom stream, the generator succeeds, its timestamp list is
sorted non-decreasingly, and it is empty whenever the Poisson draw of
the count returns 0. -/
theorem generate_sorted (rng : NumpyRNG) (st : ℕ) (rate duration : ℚ)
    (seed : ℤ) (hr : 0 ≤ rate) (hd : 0 < duration) :
    ∃ ts stf, generate_spike_train rng st rate duration seed =
        Except.ok (ts, stf) ∧
      List.Sorted (· ≤ ·) ts ∧
      (∀ st2, np_random_poisson rng (rng.seedState seed)
          (expected_spikes rate duration) = Except.ok (0, st2) → ts = []) := by
  have hlam : 0 ≤ expected_spikes rate duration := by
    rw [expected_spikes_eq_floor hr hd]
    exact Int.floor_nonneg.mpr (div_nonneg (mul_nonneg hr hd.le) (by norm_num))
  simp only [generate_spike_train]
  cases hp : np_random_poisson rng (rng.seedState seed)
      (expected_spikes rate duration) with
  | error e =>
    exfalso
    unfold np_random_poisson at hp
    rw [if_neg (not_lt.mpr hlam)] at hp
    by_cases h0 : expected_spikes rate duration = 0
    · rw [if_pos h0] at hp; exact Except.noConfusion hp
    · rw [if_neg h0] at hp; exact Except.noConfusion hp
  | ok nst =>
    refine ⟨_, _, rfl, List.sorted_insertionSort _ _, fun st2 h0 => ?_⟩
    obtain rfl : nst = (0, st2) := Except.ok.inj h0
    rfl

set_option maxHeartbeats 1000000 in
/-- C10: with rate at least 0, positive duration and rate * duration
below 1000, the truncated expected count is 0, the Poisson draw is
deterministically 0, and the generator returns the empty train no matter
the seed or pseudorandom stream. -/
theorem generate_empty_below_threshold (rng : NumpyRNG) (st : ℕ)
    (rate duration : ℚ) (seed : ℤ) (hr : 0 ≤ rate) (hd : 0 < duration)
    (hsmall : rate * duration < 1000) :
    generate_spike_train rng st rate duration seed =
      Except.ok ([], rng.seedState seed) := by
  have hlam : expected_spikes rate duration = 0 := by
    rw [expected_spikes_eq_floor hr hd, Int.floor_eq_zero_iff]
    refine Set.mem_Ico.mpr ⟨div_nonneg (mul_nonneg hr hd.le) (by norm_num), ?_⟩
    rw [div_lt_one (by norm_num)]
    exact hsmall
  simp only [generate_spike_train, hlam, np_random_poisson]
  norm_num
  exact ⟨rfl, rfl⟩

/-- Counterexample for C2: with rate = 15 and duration = 100 the exact
expected count is 3/2, but the value the script passes to the Poisson
draw is int(3/2) = 1, so the passed mean is not rate * duration / 1000. -/
theorem poisson_mean_truncated_counterexample :
    ((expected_spikes 15 100 : ℤ) : ℚ) ≠ 15 * 100 / 1000 := by
  rw [expected_spikes_eq_floor (by norm_num) (by norm_num)]
  norm_num

/-- C2 amended: the mean the script passes to the Poisson draw is
int(rate * duration / 1000), i.e. for valid parameters the floor of the
exact expected count; it equals the exact value only up to truncation
(it lies in the half-open unit interval below it). -/
theorem poisson_mean_floor (rate duration : ℚ) (hr : 0 ≤ rate)
    (hd : 0 < duration) :
    ((expected_spikes rate duration : ℤ) : ℚ) ≤ rate * duration / 1000 ∧
      rate * duration / 1000 < ((expected_spikes rate duration : ℤ) : ℚ) + 1 := by
  rw [expected_spikes_eq_floor hr hd]
  exact ⟨Int.floor_le _, Int.lt_floor_add_one _⟩

/-- Witness for C2 amended: at rate 15 and duration 100 the truncated
mean 1 brackets the exact expected count 3/2 from below. -/
theorem poisson_mean_floor_witness :
    ((expected_spikes 15 100 : ℤ) : ℚ) ≤ 15 * 100 / 1000 ∧
      15 * 100 / 1000 < ((expected_spikes 15 100 : ℤ) : ℚ) + 1 :=
  poisson_mean_floor 15 100 (by norm_num) (by norm_num)

/-- Witness for C9: a concrete valid call (rate 10, duration 1000,
seed 42) on the concrete pseudorandom source. -/
theorem generate_sorted_witness :
    ∃ ts stf, generate_spike_train sampleRNG 0 10 1000 42 =
        Except.ok (ts, stf) ∧
      List.Sorted (· ≤ ·) ts ∧
      (∀ st2, np_random_poisson sampleRNG (sampleRNG.seedState 42)
          (expected_spikes 10 1000) = Except.ok (0, st2) → ts = []) :=
  generate_sorted sampleRNG 0 10 1000 42 (by norm_num) (by norm_num)

/-- Witness for C10: rate 1 Hz over 500 ms has expected count 1/2, which
truncates to 0, so the generated train is empty with certainty. -/
theorem generate_empty_below_threshold_witness :
    generate_spike_train sampleRNG 0 1 500 42 =
      Except.ok ([], sampleRNG.seedState 42) :=
  generate_empty_below_threshold sampleRNG 0 1 500 42 (by norm_num)
    (by norm_num) (by norm_num)

/-- Helper: the modelled np.random.poisson succeeds exactly when the
requested mean is non-negative. -/
theorem np_random_poisson_ok_iff (rng : NumpyRNG) (st : ℕ) (lam : ℤ) :
    (∃ r, np_random_poisson rng st lam = Except.ok r) ↔ 0 ≤ lam := by
  unfold np_random_poisson
  by_cases h : lam < 0
  · rw [if_pos h]
    simp [not_le.mpr h]
  · rw [if_neg h]
    by_cases h0 : lam = 0
    · rw [if_pos h0]
      simp [not_lt.mp h]
    · rw [if_neg h0]
      simp [not_lt.mp h]

/-- Helper: np.arange with a nonzero step returns its arithmetic
progression. -/
theorem np_arange_ok {step : ℚ} (start stop : ℚ) (h : step ≠ 0) :
    np_arange start stop step = Except.ok
      ((List.range (ratCeilZ ((stop - start) / step)).toNat).map
        (fun k : ℕ => start + (k : ℚ) * step)) := by
  simp only [np_arange, if_neg h]

/-- Helper: np.histogram rejects decreasing bin edges. -/
theorem np_histogram_not_mono {a bins : List ℚ}
    (hc : ¬ List.Chain' (· ≤ ·) bins) :
    np_histogram a bins = Except.error "bins must increase monotonically" := by
  simp only [np_histogram, if_neg hc]

/-- Helper: the per-bin counts np.histogram returns on non-decreasing
edges. -/
theorem np_histogram_ok_eq {a bins : List ℚ}
    (hc : List.Chain' (· ≤ ·) bins) :
    np_histogram a bins = Except.ok
      ((List.range (bins.length - 1)).map (fun i =>
        a.countP (fun x =>
          decide (bins.getD i 0 ≤ x) &&
          (if i + 2 = bins.length then decide (x ≤ bins.getD (i + 1) 0)
           else decide (x < bins.getD (i + 1) 0))))) := by
  simp only [np_histogram, if_pos hc]

/-- Helper: fewer than two edges give zero bins and empty counts
without an error, as numpy does. -/
theorem np_histogram_degenerate {a bins : List ℚ} (h : bins.length < 2) :
    np_histogram a bins = Except.ok [] := by
  have hc : List.Chain' (· ≤ ·) bins := by
    match bins, h with
    | [], _ => exact List.chain'_nil
    | [x], _ => exact List.chain'_singleton x
  rw [np_histogram_ok_eq hc]
  have h0 : bins.length - 1 = 0 := by omega
  rw [h0]
  rfl

/-- Helper: calculate_firing_rate propagates an np.arange error. -/
theorem calculate_firing_rate_arange_err {ts : List ℚ} {b : ℚ}
    {dur : Option ℚ} {e : String}
    (h : np_arange 0 (effectiveDuration ts dur + b) b = Except.error e) :
    calculate_firing_rate ts b dur = Except.error e := by
  simp only [calculate_firing_rate]
  rw [h]

/-- Helper: calculate_firing_rate propagates an np.histogram error. -/
theorem calculate_firing_rate_hist_err {ts : List ℚ} {b : ℚ}
    {dur : Option ℚ} {bins : List ℚ} {e : String}
    (h1 : np_arange 0 (effectiveDuration ts dur + b) b = Except.ok bins)
    (h2 : np_histogram ts bins = Except.error e) :
    calculate_firing_rate ts b dur = Except.error e := by
  simp only [calculate_firing_rate]
  rw [h1]
  show (match np_histogram ts bins with
        | Except.error e => Except.error e
        | Except.ok counts =>
          Except.ok (bins.dropLast.map (fun e => e + b / 2),
            counts.map (fun c : ℕ => (c : ℚ) / (b / 1000)))) = Except.error e
  rw [h2]

/-- Helper: the successful unfolding of calculate_firing_rate. -/
theorem calculate_firing_rate_eq {ts : List ℚ} {b : ℚ} {dur : Option ℚ}
    {bins : List ℚ} {counts : List ℕ}
    (h1 : np_arange 0 (effectiveDuration ts dur + b) b = Except.ok bins)
    (h2 : np_histogram ts bins = Except.ok counts) :
    calculate_firing_rate ts b dur = Except.ok
      (bins.dropLast.map (fun e => e + b / 2),
       counts.map (fun c : ℕ => (c : ℚ) / (b / 1000))) := by
  simp only [calculate_firing_rate]
  rw [h1]
  show (match np_histogram ts bins with
        | Except.error e => Except.error e
        | Except.ok counts =>
          Except.ok (bins.dropLast.map (fun e => e + b / 2),
            counts.map (fun c : ℕ => (c : ℚ) / (b / 1000)))) =
    Except.ok (bins.dropLast.map (fun e => e + b / 2),
      counts.map (fun c : ℕ => (c : ℚ) / (b / 1000)))
  rw [h2]

/-- C1 amended: neither operation validates its parameters up front.
The generator succeeds exactly when the truncated expected count
int(rate * duration / 1000) is non-negative (so rate < 0 or
duration <= 0 can slip through and produce a result; the only error
surfaces later, from the Poisson draw, when the truncated count is
negative).  The rate estimator does not reject binSize <= 0 either:
binSize = 0 fails only inside np.arange, while a negative binSize over
a window with positive remaining span silently succeeds and returns an
empty RateSeries (np.arange produces no edges and np.histogram accepts
fewer than two edges, yielding empty counts). -/
theorem no_upfront_validation (rng : NumpyRNG) (st : ℕ) (rate duration : ℚ)
    (seed : ℤ) (ts : List ℚ) (b : ℚ) (dur : Option ℚ) :
    ((∃ res, generate_spike_train rng st rate duration seed = Except.ok res) ↔
      0 ≤ expected_spikes rate duration) ∧
    (∀ res, calculate_firing_rate ts 0 dur ≠ Except.ok res) ∧
    (b < 0 → 0 < effectiveDuration ts dur + b →
      calculate_firing_rate ts b dur = Except.ok ([], [])) := by
  refine ⟨?_, ?_, ?_⟩
  · simp only [generate_spike_train]
    cases hp : np_random_poisson rng (rng.seedState seed)
        (expected_spikes rate duration) with
    | error e =>
      constructor
      · rintro ⟨res, hres⟩
        exact Except.noConfusion hres
      · intro hge
        obtain ⟨r, hr⟩ := (np_random_poisson_ok_iff rng (rng.seedState seed)
          (expected_spikes rate duration)).mpr hge
        rw [hp] at hr
        exact Except.noConfusion hr
    | ok r =>
      have h := np_random_poisson_ok_iff rng (rng.seedState seed)
        (expected_spikes rate duration)
      rw [hp] at h
      exact ⟨fun _ => h.mp ⟨r, rfl⟩, fun _ => ⟨_, rfl⟩⟩
  · intro res
    have ha : np_arange 0 (effectiveDuration ts dur + 0) 0 =
        Except.error "step must be nonzero" := by
      simp only [np_arange, if_pos]
    rw [calculate_firing_rate_arange_err ha]
    exact fun h => Except.noConfusion h
  · intro hblt hpos
    have hb0 : b ≠ 0 := ne_of_lt hblt
    have ha := np_arange_ok 0 (effectiveDuration ts dur + b) hb0
    have hm : (ratCeilZ ((effectiveDuration ts dur + b - 0) / b)).toNat = 0 := by
      rw [ratCeilZ_eq_ceil]
      have hq : (effectiveDuration ts dur + b - 0) / b ≤ 0 := by
        rw [sub_zero, div_nonpos_iff]
        left
        exact ⟨hpos.le, hblt.le⟩
      have hceil : ⌈(effectiveDuration ts dur + b - 0) / b⌉ ≤ 0 :=
        Int.ceil_le.mpr (by exact_mod_cast hq)
      omega
    rw [hm] at ha
    have ha0 : np_arange 0 (effectiveDuration ts dur + b) b =
        Except.ok [] := by simpa using ha
    have hh : np_histogram ts ([] : List ℚ) = Except.ok [] :=
      np_histogram_degenerate (by simp)
    have hcr := calculate_firing_rate_eq ha0 hh
    simpa using hcr

/-- Counterexample for C1: the call generate_spike_train(rate=10,
duration=0, seed=42) has an invalid duration (duration <= 0), yet it is
not rejected: on the concrete pseudorandom source it succeeds and
returns the empty spike train, because int(10 * 0 / 1000) = 0 and the
Poisson draw with mean 0 yields 0.  No error is surfaced to the
caller. -/
theorem invalid_duration_accepted :
    generate_spike_train sampleRNG 0 10 0 42 =
      Except.ok ([], sampleRNG.seedState 42) := by
  have h : expected_spikes 10 0 = 0 := by
    rw [expected_spikes, show (10 * 0 / 1000 : ℚ) = 0 by norm_num,
      pyInt_eq_floor le_rfl, Int.floor_zero]
  simp only [generate_spike_train, h, np_random_poisson]
  norm_num
  exact ⟨rfl, rfl⟩

/-- Witness for C1 amended: a concrete invalid generator call (duration
0) that the success criterion classifies, the zero bin size failing
inside np.arange, and the call calculate_firing_rate([], -5, None)
silently succeeding with an empty RateSeries over the default 1000 ms
window. -/
theorem no_upfront_validation_witness :
    ((∃ res, generate_spike_train sampleRNG 0 10 0 42 = Except.ok res) ↔
      0 ≤ expected_spikes 10 0) ∧
    (∀ res, calculate_firing_rate [] 0 none ≠ Except.ok res) ∧
    calculate_firing_rate [] (-5) none = Except.ok ([], []) :=
  ⟨(no_upfront_validation sampleRNG 0 10 0 42 [] (-5) none).1,
   (no_upfront_validation sampleRNG 0 10 0 42 [] (-5) none).2.1,
   (no_upfront_validation sampleRNG 0 10 0 42 [] (-5) none).2.2 (by norm_num)
     (by show (0 : ℚ) < 1000 + (-5); norm_num)⟩

/-- Helper: summing binary indicators over a list counts the hits. -/
theorem sum_map_indicator {β : Type} (q : β → Bool) (l : List β) :
    (l.map (fun i => if q i = true then 1 else 0)).sum = l.countP q := by
  induction l with
  | nil => rfl
  | cons a t ih => simp [List.countP_cons, ih, Nat.add_comm]

/-- Helper: when every element satisfies exactly one of the predicates
p 0, ..., p (n-1), the per-predicate counts sum to the list length. -/
theorem sum_map_countP {α : Type} (l : List α) (n : ℕ) (p : ℕ → α → Bool)
    (h : ∀ x ∈ l, (List.range n).countP (fun i => p i x) = 1) :
    ((List.range n).map (fun i => l.countP (p i))).sum = l.length := by
  induction l with
  | nil => simp
  | cons a t ih =>
    simp only [List.countP_cons]
    rw [List.sum_map_add]
    rw [ih (fun x hx => h x (List.mem_cons_of_mem a hx))]
    rw [sum_map_indicator (fun i => p i a) (List.range n)]
    rw [h a (List.mem_cons_self a t)]
    simp [Nat.add_comm]

/-- Helper: a value x with 0 <= x <= n * b lies in exactly one of the n
histogram bins of width b (bins are left-closed and right-open, the
last bin also closed on the right). -/
theorem bin_membership_unique {b x : ℚ} {n : ℕ} (hb : 0 < b) (hn : 1 ≤ n)
    (hx0 : 0 ≤ x) (hxn : x ≤ (n : ℚ) * b) :
    (List.range n).countP (fun i : ℕ =>
      decide ((i : ℚ) * b ≤ x) &&
      (if i + 2 = n + 1 then decide (x ≤ ((i + 1 : ℕ) : ℚ) * b)
       else decide (x < ((i + 1 : ℕ) : ℚ) * b))) = 1 := by
  have hdiv0 : 0 ≤ x / b := div_nonneg hx0 hb.le
  set F : ℕ := ⌊x / b⌋.toNat with hF
  have hFeq : (F : ℤ) = ⌊x / b⌋ :=
    Int.toNat_of_nonneg (Int.floor_nonneg.mpr hdiv0)
  have key1 : ∀ i : ℕ, ((i : ℚ) * b ≤ x ↔ i ≤ F) := by
    intro i
    rw [(le_div_iff₀ hb).symm]
    constructor
    · intro h
      have h2 : (i : ℤ) ≤ ⌊x / b⌋ := Int.le_floor.mpr (by exact_mod_cast h)
      omega
    · intro h
      have h2 : (i : ℤ) ≤ ⌊x / b⌋ := by omega
      exact_mod_cast Int.le_floor.mp h2
  have key2 : ∀ i : ℕ, (x < ((i + 1 : ℕ) : ℚ) * b ↔ F ≤ i) := by
    intro i
    rw [(div_lt_iff₀ hb).symm]
    constructor
    · intro h
      have h2 : ⌊x / b⌋ < ((i + 1 : ℕ) : ℤ) :=
        Int.floor_lt.mpr (by exact_mod_cast h)
      omega
    · intro h
      have h2 : ⌊x / b⌋ < ((i + 1 : ℕ) : ℤ) := by omega
      exact_mod_cast Int.floor_lt.mp h2
  set j : ℕ := min F (n - 1) with hj
  have hjn : j < n := by omega
  have hcong : (List.range n).countP (fun i : ℕ =>
      decide ((i : ℚ) * b ≤ x) &&
      (if i + 2 = n + 1 then decide (x ≤ ((i + 1 : ℕ) : ℚ) * b)
       else decide (x < ((i + 1 : ℕ) : ℚ) * b))) =
      (List.range n).countP (fun i => i == j) := by
    apply List.countP_congr
    intro i hi
    rw [List.mem_range] at hi
    by_cases hcase : i + 2 = n + 1
    · simp only [if_pos hcase, Bool.and_eq_true, decide_eq_true_eq, beq_iff_eq]
      constructor
      · rintro ⟨h1, _⟩
        have hF1 : i ≤ F := (key1 i).mp h1
        omega
      · intro hij
        refine ⟨(key1 i).mpr (by omega), ?_⟩
        have hin : (i + 1 : ℕ) = n := by omega
        rw [hin]
        exact hxn
    · simp only [if_neg hcase, Bool.and_eq_true, decide_eq_true_eq, beq_iff_eq]
      constructor
      · rintro ⟨h1, h2⟩
        have hF1 : i ≤ F := (key1 i).mp h1
        have hF2 : F ≤ i := (key2 i).mp h2
        omega
      · intro hij
        exact ⟨(key1 i).mpr (by omega), (key2 i).mpr (by omega)⟩
  rw [hcong]
  exact List.count_eq_one_of_mem (List.nodup_range n) (List.mem_range.mpr hjn)

/-- Helper: the np.arange edge count over the window d plus one extra
step is one more than the bin count, the ceiling of d / b. -/
theorem arange_len {d b : ℚ} (hb : 0 < b) (hd : 0 < d) :
    (ratCeilZ ((d + b - 0) / b)).toNat = (ratCeilZ (d / b)).toNat + 1 := by
  have harg : (d + b - 0) / b = d / b + 1 := by
    field_simp
  rw [ratCeilZ_eq_ceil, ratCeilZ_eq_ceil, harg, Int.ceil_add_one]
  have hpos : 0 < ⌈d / b⌉ := Int.ceil_pos.mpr (div_pos hd hb)
  omega

/-- Helper: the np.arange edges with positive step are non-decreasing. -/
theorem arange_bins_chain {b : ℚ} (hb : 0 < b) (m : ℕ) :
    List.Chain' (· ≤ ·)
      ((List.range m).map (fun k : ℕ => (0 : ℚ) + (k : ℚ) * b)) := by
  apply List.Pairwise.chain'
  rw [List.pairwise_map]
  exact (List.pairwise_lt_range m).imp
    (fun h => add_le_add_left
      (mul_le_mul_of_nonneg_right (by exact_mod_cast h.le) hb.le) 0)

/-- Helper: the i-th np.arange edge is i * b. -/
theorem arange_bins_getD {b : ℚ} {m i : ℕ} (hi : i < m) :
    ((List.range m).map (fun k : ℕ => (0 : ℚ) + (k : ℚ) * b)).getD i 0 =
      (i : ℚ) * b := by
  rw [List.getD_eq_getElem _ _ (by simpa using hi)]
  simp

set_option maxHeartbeats 1000000 in
/-- C6: for every spike train contained in [0, duration] and every
positive bin size, the binning of calculate_firing_rate succeeds and the
per-bin counts sum to the total number of spikes: no spike is dropped or
double counted, including at the right edge of the last bin. -/
theorem rate_conservation (ts : List ℚ) (b d : ℚ) (hb : 0 < b) (hd : 0 < d)
    (hts : ∀ x ∈ ts, 0 ≤ x ∧ x ≤ d) :
    ∃ bins counts,
      np_arange 0 (d + b) b = Except.ok bins ∧
      np_histogram ts bins = Except.ok counts ∧
      counts.sum = ts.length := by
  have hb0 : b ≠ 0 := ne_of_gt hb
  set n : ℕ := (ratCeilZ (d / b)).toNat with hn
  have hn1 : 1 ≤ n := by
    rw [hn, ratCeilZ_eq_ceil]
    have := Int.ceil_pos.mpr (div_pos hd hb)
    omega
  have hm : (ratCeilZ ((d + b - 0) / b)).toNat = n + 1 := arange_len hb hd
  have ha := np_arange_ok 0 (d + b) hb0
  rw [hm] at ha
  set bins : List ℚ :=
    (List.range (n + 1)).map (fun k : ℕ => (0 : ℚ) + (k : ℚ) * b) with hbins
  have hlen : bins.length = n + 1 := by
    rw [hbins]; simp
  have hchain : List.Chain' (· ≤ ·) bins := arange_bins_chain hb (n + 1)
  have hh := np_histogram_ok_eq (a := ts) hchain
  refine ⟨bins, _, ha, hh, ?_⟩
  have hmap : (List.range (bins.length - 1)).map (fun i =>
      ts.countP (fun x =>
        decide (bins.getD i 0 ≤ x) &&
        (if i + 2 = bins.length then decide (x ≤ bins.getD (i + 1) 0)
         else decide (x < bins.getD (i + 1) 0)))) =
      (List.range n).map (fun i : ℕ =>
        ts.countP (fun x =>
          decide ((i : ℚ) * b ≤ x) &&
          (if i + 2 = n + 1 then decide (x ≤ ((i + 1 : ℕ) : ℚ) * b)
           else decide (x < ((i + 1 : ℕ) : ℚ) * b)))) := by
    rw [hlen]
    simp only [Nat.add_sub_cancel]
    apply List.map_congr_left
    intro i hi
    rw [List.mem_range] at hi
    apply congrArg ts.countP
    funext x
    rw [arange_bins_getD (show i < n + 1 by omega),
      arange_bins_getD (show i + 1 < n + 1 by omega)]
  rw [hmap]
  have hdn : d ≤ (n : ℚ) * b := by
    have hceil : d / b ≤ ((n : ℤ) : ℚ) := by
      rw [hn, ratCeilZ_eq_ceil, Int.toNat_of_nonneg
        (le_of_lt (Int.ceil_pos.mpr (div_pos hd hb)))]
      exact Int.le_ceil _
    calc d = d / b * b := by field_simp
    _ ≤ ((n : ℤ) : ℚ) * b := mul_le_mul_of_nonneg_right hceil hb.le
    _ = (n : ℚ) * b := by norm_num
  apply sum_map_countP
  intro x hx
  obtain ⟨hx0, hxd⟩ := hts x hx
  exact bin_membership_unique hb hn1 hx0 (le_trans hxd hdn)

/-- Witness for C6: the train [0, 25, 50] over a 100 ms window with
50 ms bins; the two bin counts sum to the 3 spikes. -/
theorem rate_conservation_witness :
    ∃ bins counts,
      np_arange 0 (100 + 50) 50 = Except.ok bins ∧
      np_histogram [(0 : ℚ), 25, 50] bins = Except.ok counts ∧
      counts.sum = [(0 : ℚ), 25, 50].length :=
  rate_conservation [(0 : ℚ), 25, 50] 50 100 (by norm_num) (by norm_num)
    (by intro x hx; simp at hx; rcases hx with rfl | rfl | rfl <;> norm_num)

set_option maxHeartbeats 1000000 in
/-- C7: without an explicit duration the rate estimator uses the last
timestamp as the window, or 1000 ms when the train is empty; on the
empty train it succeeds and produces all-zero rates over that default
1000 ms window (the number of bins is the ceiling of 1000 / binSize),
not an error. -/
theorem default_duration_policy (b : ℚ) (hb : 0 < b) :
    (∀ (ts : List ℚ) (h : ts ≠ []), effectiveDuration ts none = ts.getLast h) ∧
    effectiveDuration ([] : List ℚ) none = 1000 ∧
    ∃ centers rates,
      calculate_firing_rate [] b none = Except.ok (centers, rates) ∧
      rates.length = (ratCeilZ (1000 / b)).toNat ∧
      ∀ r ∈ rates, r = 0 := by
  refine ⟨?_, rfl, ?_⟩
  · intro ts h
    simp only [effectiveDuration]
    rw [List.getLast?_eq_getLast ts h]
  · have hb0 : b ≠ 0 := ne_of_gt hb
    set n : ℕ := (ratCeilZ (1000 / b)).toNat with hn
    have hn1 : 1 ≤ n := by
      rw [hn, ratCeilZ_eq_ceil]
      have := Int.ceil_pos.mpr (div_pos (by norm_num : (0:ℚ) < 1000) hb)
      omega
    have ha := np_arange_ok 0 (effectiveDuration [] none + b) hb0
    have hm : (ratCeilZ ((effectiveDuration [] none + b - 0) / b)).toNat =
        n + 1 := by
      show (ratCeilZ ((1000 + b - 0) / b)).toNat = n + 1
      exact arange_len hb (by norm_num)
    rw [hm] at ha
    set bins : List ℚ :=
      (List.range (n + 1)).map (fun k : ℕ => (0 : ℚ) + (k : ℚ) * b) with hbins
    have hlen : bins.length = n + 1 := by rw [hbins]; simp
    have hchain : List.Chain' (· ≤ ·) bins := arange_bins_chain hb (n + 1)
    have hh := np_histogram_ok_eq (a := ([] : List ℚ)) hchain
    have hcr := calculate_firing_rate_eq ha hh
    refine ⟨_, _, hcr, ?_, ?_⟩
    · simp [hlen]
    · intro r hr
      simp only [List.mem_map] at hr
      obtain ⟨c, hc, rfl⟩ := hr
      obtain ⟨i, hi, rfl⟩ := hc
      simp [List.countP_nil]

/-- Witness for C7: the empty train with the default 50 ms bins yields a
20-bin all-zero RateSeries over the default 1000 ms window. -/
theorem default_duration_policy_witness :
    (∀ (ts : List ℚ) (h : ts ≠ []), effectiveDuration ts none = ts.getLast h) ∧
    effectiveDuration ([] : List ℚ) none = 1000 ∧
    ∃ centers rates,
      calculate_firing_rate [] 50 none = Except.ok (centers, rates) ∧
      rates.length = (ratCeilZ (1000 / 50)).toNat ∧
      ∀ r ∈ rates, r = 0 :=
  default_duration_policy 50 (by norm_num)
